import Mathlib

/-!
Shallow embedding of the absorption-correction engine of diffpy.labpdfproc
(src/diffpy/labpdfproc/functions.py), together with theorems checking the
natural-language specification against it.

Conventions of the embedding:
* python floats are idealised as exact real numbers (or as elements of a
  general linear ordered field where the code is purely order/field
  arithmetic, so that concrete instances can be evaluated over the rationals);
* numpy arrays become lists; mutation of instance attributes becomes explicit
  state passing on a structure;
* a python function that raises becomes a function into an Except type whose
  error value carries the data interpolated into the exception message.
-/

namespace LabPdfProc

/-- Embedding of numpy.linspace a b n: n evenly spaced values from a to b,
both endpoints included; for n = 1 numpy returns the singleton list holding
the start value. -/
def linspace {K : Type} [LinearOrderedField K] (a b : K) (n : ℕ) : List K :=
  if n = 1 then [a]
  else (List.range n).map (fun i : ℕ => a + (i : K) * ((b - a) / ((n - 1 : ℕ) : K)))

/-- Embedding of Gridded_circle.get_grid_points: the comprehension
[(x, y) for x in xs for y in ys if x ** 2 + y ** 2 <= radius ** 2]
with xs = ys = linspace (-radius) radius npoints. -/
def get_grid_points {K : Type} [LinearOrderedField K] (radius : K) (npoints : ℕ) :
    List (K × K) :=
  let xs := linspace (-radius) radius npoints
  let ys := linspace (-radius) radius npoints
  xs.flatMap (fun x => ys.flatMap (fun y =>
    if x ^ 2 + y ^ 2 ≤ radius ^ 2 then [(x, y)] else []))

/-- Loop body of Gridded_circle.get_coordinate_index: scan the grid from the
front carrying the running index; on a match return that index, and when the
scan falls off the end the count equals the grid length, so the method always
raises IndexError there (the error value carries the coordinate interpolated
into the message). -/
def get_coordinate_index_aux {K : Type} [LinearOrderedField K] (c : K × K) :
    List (K × K) → ℕ → Except (K × K) ℕ
  | [], _ => .error c
  | t :: rest, i => if c = t then .ok i else get_coordinate_index_aux c rest (i + 1)

/-- Embedding of Gridded_circle.get_coordinate_index: first index of the
coordinate in the grid, or an IndexError naming the coordinate when it does
not occur (also when the grid is empty). -/
def get_coordinate_index {K : Type} [LinearOrderedField K] (grid : List (K × K))
    (c : K × K) : Except (K × K) ℕ :=
  get_coordinate_index_aux c grid 0

/-- Embedding of math.radians. -/
noncomputable def radians (angle : ℝ) : ℝ := angle * Real.pi / 180

/-- Embedding of math.isclose a b abs_tol=1e-7 (the default relative
tolerance 1e-9 stays in force): |a - b| <= max(rel_tol*max(|a|,|b|), abs_tol). -/
def isclose (a b : ℝ) : Prop :=
  |a - b| ≤ max ((1 / 10 ^ 9) * max |a| |b|) (1 / 10 ^ 7)

/-- Embedding of math.dist on 2d points. -/
noncomputable def math_dist (p q : ℝ × ℝ) : ℝ :=
  Real.sqrt ((p.1 - q.1) ^ 2 + (p.2 - q.2) ^ 2)

/-- Embedding of np.roots on the quadratic A x^2 + B x + C with real roots:
the two roots (-B - sqrt disc)/(2 A) and (-B + sqrt disc)/(2 A).  np.roots
returns the two roots of the quadratic in an implementation-defined order; we
fix the ascending order for A > 0.  Every theorem below that touches the root
selection only uses conclusions that hold for either ordering of the pair. -/
noncomputable def roots2 (A B C : ℝ) : ℝ × ℝ :=
  ((-B - Real.sqrt (B ^ 2 - 4 * A * C)) / (2 * A),
   (-B + Real.sqrt (B ^ 2 - 4 * A * C)) / (2 * A))

open Classical in
/-- Embedding of get_entry_exit_coordinates: entry point at the same height on
the negative-x side of the circle; exit point from intersecting the line
through the point at the given angle with the circle, picking root 2 when its
y-coordinate is at least the grid point's y, else root 1; a dedicated branch
for angles whose radian value is close to pi/2 returns the boundary point
directly above the grid point. -/
noncomputable def get_entry_exit_coordinates (coordinate : ℝ × ℝ) (angle : ℝ)
    (radius : ℝ) : (ℝ × ℝ) × (ℝ × ℝ) :=
  let angleR := radians angle
  let xgrid := coordinate.1
  let ygrid := coordinate.2
  let entry_point : ℝ × ℝ := (-Real.sqrt (radius ^ 2 - ygrid ^ 2), ygrid)
  if ¬ isclose angleR (Real.pi / 2) then
    let b := ygrid - xgrid * Real.tan angleR
    let a := Real.tan angleR
    let rts := roots2 (1 + a ^ 2) (2 * a * b) (b ^ 2 - radius ^ 2)
    let yexit1 := a * rts.1 + b
    let yexit2 := a * rts.2 + b
    if ygrid ≤ yexit2 then (entry_point, (rts.2, yexit2))
    else (entry_point, (rts.1, yexit1))
  else
    (entry_point, (xgrid, Real.sqrt (radius ^ 2 - xgrid ^ 2)))

open Classical in
/-- Embedding of get_path_length: an angle equal to zero is moved a tad
(1e-6) above zero first; returns (total, primary, secondary). -/
noncomputable def get_path_length (grid_point : ℝ × ℝ) (angle : ℝ) (radius : ℝ) :
    ℝ × ℝ × ℝ :=
  let angle2 := if angle = 0 then angle + 1 / 10 ^ 6 else angle
  let ee := get_entry_exit_coordinates grid_point angle2 radius
  let primary_distance := math_dist grid_point ee.1
  let secondary_distance := math_dist grid_point ee.2
  (primary_distance + secondary_distance, primary_distance, secondary_distance)

/-- State of a Gridded_circle object: constructor arguments plus the mutable
list attributes (grid and total_points_in_grid are set by get_grid_points in
the constructor; the distance and muls lists start empty). -/
structure Gridded_circle where
  radius : ℝ
  npoints : ℕ
  mu : ℝ
  grid : List (ℝ × ℝ)
  total_points_in_grid : ℕ
  distances : List ℝ
  primary_distances : List ℝ
  secondary_distances : List ℝ
  muls : List ℝ

/-- Embedding of Gridded_circle.__init__ (which calls get_grid_points). -/
noncomputable def Gridded_circle.init (radius : ℝ) (npoints : ℕ) (mu : ℝ) :
    Gridded_circle :=
  { radius := radius
    npoints := npoints
    mu := mu
    grid := get_grid_points radius npoints
    total_points_in_grid := (get_grid_points radius npoints).length
    distances := []
    primary_distances := []
    secondary_distances := []
    muls := [] }

/-- Embedding of Gridded_circle.set_distances_at_angle: overwrite the three
distance lists with fresh path lengths at the given angle. -/
noncomputable def Gridded_circle.set_distances_at_angle (g : Gridded_circle)
    (angle : ℝ) : Gridded_circle :=
  { g with
    distances := g.grid.map (fun c => (get_path_length c angle g.radius).1)
    primary_distances := g.grid.map (fun c => (get_path_length c angle g.radius).2.1)
    secondary_distances := g.grid.map (fun c => (get_path_length c angle g.radius).2.2) }

open Classical in
/-- Embedding of Gridded_circle.set_muls_at_angle: distances are recomputed at
the given angle only when the stored distance list is empty; the muls list is
then rebuilt from whatever distance list is stored. -/
noncomputable def Gridded_circle.set_muls_at_angle (g : Gridded_circle)
    (angle : ℝ) : Gridded_circle :=
  let g2 := if g.distances.length = 0 then g.set_distances_at_angle angle else g
  { g2 with muls := g2.distances.map (fun d => Real.exp (-g2.mu * d)) }

/-- Module constant RADIUS_MM = 1. -/
def RADIUS_MM : ℝ := 1

/-- Module constant N_POINTS_ON_DIAMETER = 249. -/
def N_POINTS_ON_DIAMETER : ℕ := 249

/-- Module constant TTH_GRID = np.arange(1, 141, 1): the integer angles
1, 2, ..., 140 (degrees), here as real numbers. -/
noncomputable def TTH_GRID : List ℝ :=
  (List.range 140).map (fun n : ℕ => (n : ℝ) + 1)

/-- The for-loop of compute_cve over the angle grid: thread the
Gridded_circle state through set_distances_at_angle and set_muls_at_angle and
collect sum(distances) and sum(muls) per angle.  Returns the final state and
the two collected lists. -/
noncomputable def cve_fold (g : Gridded_circle) :
    List ℝ → Gridded_circle × List ℝ × List ℝ
  | [] => (g, [], [])
  | angle :: rest =>
    let g1 := g.set_distances_at_angle angle
    let g2 := g1.set_muls_at_angle angle
    let r := cve_fold g2 rest
    (r.1, g2.distances.sum :: r.2.1, g2.muls.sum :: r.2.2)

/-- The internal correction curve of compute_cve: run the loop over TTH_GRID
on a fresh Gridded_circle(RADIUS_MM, N_POINTS_ON_DIAMETER, mu=mud/2), divide
the per-angle muls sums by total_points_in_grid, and take cve = 1/muls. -/
noncomputable def cve_internal (mud : ℝ) : List ℝ :=
  let mu_sample_invmm := mud / 2
  let abs_correction := Gridded_circle.init RADIUS_MM N_POINTS_ON_DIAMETER mu_sample_invmm
  let res := cve_fold abs_correction TTH_GRID
  let muls := res.2.2.map (fun s => s / ((res.1.total_points_in_grid : ℕ) : ℝ))
  muls.map (fun m => 1 / m)

open Classical in
/-- Embedding of np.interp x xp fp for an increasing xp, on the list of
(xp, fp) pairs: clamp to the first value left of the nodes and to the last
value right of them, and interpolate linearly inside each interval. -/
noncomputable def interp1 (x : ℝ) : List (ℝ × ℝ) → ℝ
  | [] => 0
  | [(_, y0)] => y0
  | (x0, y0) :: (x1, y1) :: rest =>
    if x ≤ x0 then y0
    else if x ≤ x1 then y0 + (x - x0) * (y1 - y0) / (x1 - x0)
    else interp1 x ((x1, y1) :: rest)

/-- The fields of the Diffraction_object collaborator that compute_cve reads
and writes: the wavelength and the two-theta x/y arrays. -/
structure Diffraction_object where
  wavelength : ℝ
  on_tth_x : List ℝ
  on_tth_y : List ℝ

/-- Embedding of compute_cve: the measured pattern contributes only its
two-theta grid (diffraction_data.on_tth[0], here orig_grid); the internal
curve is interpolated onto that grid and wrapped into a fresh
Diffraction_object carrying the given wavelength. -/
noncomputable def compute_cve (orig_grid : List ℝ) (mud : ℝ) (wavelength : ℝ) :
    Diffraction_object :=
  let cve := cve_internal mud
  let newcve := orig_grid.map (fun x => interp1 x (TTH_GRID.zip cve))
  { wavelength := wavelength, on_tth_x := orig_grid, on_tth_y := newcve }

/-- Modelled from the spec: the closed enumeration of supported computation
strategies of compute_correction (spec 4.4: exact brute-force grid simulation
and approximate polynomial interpolation; the concrete strings follow the
repository's tests, which import CVE_METHODS from the functions module — the
revision of functions.py under src predates CVE_METHODS, so the enumeration
is missing from src and is modelled here). -/
def CVE_METHODS : List String := ["brute_force", "polynomial_interpolation"]

/-- Modelled from the spec: the two error shapes of compute_correction's
validation layer (spec 7): an unknown method (carrying the offending value
and the list of allowed names) and an out-of-range mu*D for the approximate
strategy (carrying the rejected value, the valid bounds, and the allowed
method names offered as the fallback). -/
inductive CveError where
  | unknownMethod (method : String) (allowed : List String)
  | mudOutOfRange (mud : ℚ) (lo hi : ℚ) (allowed : List String)
deriving DecidableEq

/-- Modelled from the spec: the strategy a validated compute_correction call
proceeds with. -/
inductive CveStrategy where
  | brute_force (mud : ℚ)
  | polynomial_interpolation (mud : ℚ)
deriving DecidableEq

/-- Modelled from the spec: the validation/dispatch layer of
compute_correction (spec 4.4, 7), missing from the revision of functions.py
under src (only the tests exercise it).  The method is checked against the
closed enumeration first; an unknown method fails at once, before any grid or
correction computation, naming the offending value and listing the allowed
set.  The approximate (polynomial interpolation) strategy then rejects mu*D
outside [1/2, 7] before any computation, reporting the rejected value and the
bounds.  A returned strategy token means the computation proper starts. -/
def compute_correction_dispatch (pattern : List ℚ) (mud : ℚ) (method : String) :
    Except CveError CveStrategy :=
  if method ∉ CVE_METHODS then
    .error (.unknownMethod method CVE_METHODS)
  else if method = "polynomial_interpolation" then
    if mud > 7 ∨ mud < 1 / 2 then
      .error (.mudOutOfRange mud (1 / 2) 7 CVE_METHODS)
    else
      .ok (.polynomial_interpolation mud)
  else
    .ok (.brute_force mud)

/-- A concrete Gridded_circle state holding a nonempty stored distance list,
used to instantiate theorems about set_muls_at_angle. -/
def gc_with_distances : Gridded_circle :=
  { radius := 1
    npoints := 3
    mu := 1
    grid := [((0 : ℝ), (0 : ℝ))]
    total_points_in_grid := 1
    distances := [2]
    primary_distances := [1]
    secondary_distances := [1]
    muls := [] }

/-! ### Helper lemmas -/

theorem get_coordinate_index_aux_ok {K : Type} [LinearOrderedField K] (c : K × K) :
    ∀ (l : List (K × K)) (i : ℕ), c ∈ l →
      get_coordinate_index_aux c l i =
        .ok (i + l.findIdx (fun t => decide (c = t)))
  | [], _, h => absurd h (List.not_mem_nil c)
  | t :: rest, i, h => by
    by_cases hc : c = t
    · subst hc
      simp [get_coordinate_index_aux, List.findIdx_cons]
    · have hr : c ∈ rest := by
        rcases List.mem_cons.mp h with h1 | h2
        · exact absurd h1 hc
        · exact h2
      rw [get_coordinate_index_aux, if_neg hc,
        get_coordinate_index_aux_ok c rest (i + 1) hr, List.findIdx_cons]
      simp [hc]
      omega

theorem get_coordinate_index_aux_err {K : Type} [LinearOrderedField K] (c : K × K) :
    ∀ (l : List (K × K)) (i : ℕ), c ∉ l → get_coordinate_index_aux c l i = .error c
  | [], _, _ => rfl
  | t :: rest, i, h => by
    have hc : ¬ c = t := fun he => h (he ▸ List.mem_cons_self t rest)
    have hr : c ∉ rest := fun hm => h (List.mem_cons_of_mem t hm)
    rw [get_coordinate_index_aux, if_neg hc, get_coordinate_index_aux_err c rest (i + 1) hr]

theorem zero_mem_linspace {K : Type} [LinearOrderedField K] (r : K) (n : ℕ)
    (hodd : Odd n) (h3 : 3 ≤ n) : (0 : K) ∈ linspace (-r) r n := by
  obtain ⟨k, hk⟩ := hodd
  have hk1 : 1 ≤ k := by omega
  have hn1 : n ≠ 1 := by omega
  have hkK : (0 : K) < (k : K) := by exact_mod_cast hk1
  have hcast : ((n - 1 : ℕ) : K) = 2 * (k : K) := by
    have h2 : n - 1 = 2 * k := by omega
    rw [h2]
    push_cast
    ring
  have hval : -r + (k : K) * ((r - -r) / ((n - 1 : ℕ) : K)) = 0 := by
    rw [hcast]
    field_simp
    ring
  rw [linspace, if_neg hn1]
  have hkn : k ∈ List.range n := List.mem_range.mpr (by omega)
  exact List.mem_map.mpr ⟨k, hkn, hval⟩

theorem mem_get_grid_points_bound {K : Type} [LinearOrderedField K] {r : K} {n : ℕ}
    {p : K × K} (hp : p ∈ get_grid_points r n) : p.1 ^ 2 + p.2 ^ 2 ≤ r ^ 2 := by
  rw [get_grid_points] at hp
  obtain ⟨x, _, hx⟩ := List.mem_flatMap.mp hp
  obtain ⟨y, _, hy⟩ := List.mem_flatMap.mp hx
  by_cases hc : x ^ 2 + y ^ 2 ≤ r ^ 2
  · rw [if_pos hc] at hy
    rcases List.mem_singleton.mp hy with h
    rw [h]
    exact hc
  · rw [if_neg hc] at hy
    exact absurd hy (List.not_mem_nil p)

theorem pairwise_fst_zip {α β : Type} {R : α → α → Prop} :
    ∀ (l : List α) (l2 : List β), l.Pairwise R →
      (l.zip l2).Pairwise (fun p q => R p.1 q.1)
  | [], _, _ => by simp
  | _ :: _, [], _ => by simp
  | a :: l, b :: l2, h => by
    rw [List.zip_cons_cons]
    rcases List.pairwise_cons.mp h with ⟨ha, hl⟩
    refine List.pairwise_cons.mpr ⟨?_, pairwise_fst_zip l l2 hl⟩
    intro q hq
    exact ha q.1 (List.of_mem_zip hq).1

theorem interp1_at_node :
    ∀ (ps : List (ℝ × ℝ)), ps.Pairwise (fun p q => p.1 < q.1) →
      ∀ p ∈ ps, interp1 p.1 ps = p.2
  | [], _, p, hp => absurd hp (List.not_mem_nil p)
  | [(x0, y0)], _, p, hp => by
    rcases List.mem_singleton.mp hp with h
    rw [h, interp1]
  | (x0, y0) :: (x1, y1) :: rest, h, p, hp => by
    rcases List.pairwise_cons.mp h with ⟨h0, htail⟩
    rcases List.mem_cons.mp hp with hp0 | hp1
    · rw [hp0, interp1, if_pos (le_refl x0)]
    · have hx0 : x0 < p.1 := h0 p hp1
      have hx1 : x1 ≤ p.1 := by
        rcases List.mem_cons.mp hp1 with he | hr
        · rw [he]
        · exact le_of_lt ((List.pairwise_cons.mp htail).1 p hr)
      rw [interp1, if_neg (not_le.mpr hx0)]
      rcases List.mem_cons.mp hp1 with he | hr
      · have hlt01 : x0 < x1 := by
          rw [he] at hx0
          simpa using hx0
        have hne : x1 - x0 ≠ 0 := sub_ne_zero.mpr (ne_of_gt hlt01)
        have hp1eq : p.1 = x1 := by rw [he]
        have hp2eq : p.2 = y1 := by rw [he]
        rw [if_pos (le_of_eq hp1eq), hp1eq, hp2eq]
        field_simp
      · have hlt : x1 < p.1 := (List.pairwise_cons.mp htail).1 p hr
        rw [if_neg (not_le.mpr hlt)]
        exact interp1_at_node ((x1, y1) :: rest) htail p hp1

theorem set_distances_grid (g : Gridded_circle) (θ : ℝ) :
    (g.set_distances_at_angle θ).grid = g.grid := rfl

theorem set_distances_mu (g : Gridded_circle) (θ : ℝ) :
    (g.set_distances_at_angle θ).mu = g.mu := rfl

theorem set_distances_radius (g : Gridded_circle) (θ : ℝ) :
    (g.set_distances_at_angle θ).radius = g.radius := rfl

theorem set_distances_total (g : Gridded_circle) (θ : ℝ) :
    (g.set_distances_at_angle θ).total_points_in_grid = g.total_points_in_grid := rfl

theorem set_distances_distances (g : Gridded_circle) (θ : ℝ) :
    (g.set_distances_at_angle θ).distances =
      g.grid.map (fun c => (get_path_length c θ g.radius).1) := rfl

theorem set_muls_grid (g : Gridded_circle) (θ : ℝ) :
    (g.set_muls_at_angle θ).grid = g.grid := by
  rw [Gridded_circle.set_muls_at_angle]
  split <;> rfl

theorem set_muls_mu (g : Gridded_circle) (θ : ℝ) :
    (g.set_muls_at_angle θ).mu = g.mu := by
  rw [Gridded_circle.set_muls_at_angle]
  split <;> rfl

theorem set_muls_radius (g : Gridded_circle) (θ : ℝ) :
    (g.set_muls_at_angle θ).radius = g.radius := by
  rw [Gridded_circle.set_muls_at_angle]
  split <;> rfl

theorem set_muls_total (g : Gridded_circle) (θ : ℝ) :
    (g.set_muls_at_angle θ).total_points_in_grid = g.total_points_in_grid := by
  rw [Gridded_circle.set_muls_at_angle]
  split <;> rfl

/-- After a fresh set_distances_at_angle at the same angle, set_muls_at_angle
produces the attenuations exp(-mu*d) of the distances at that angle (whether
or not the stored list was empty, since recomputation at the same angle is
idempotent). -/
theorem step_muls (g : Gridded_circle) (θ : ℝ) :
    ((g.set_distances_at_angle θ).set_muls_at_angle θ).muls =
      g.grid.map (fun p => Real.exp (-g.mu * (get_path_length p θ g.radius).1)) := by
  rw [Gridded_circle.set_muls_at_angle]
  split
  · rw [show ((g.set_distances_at_angle θ).set_distances_at_angle θ).distances =
        g.grid.map (fun c => (get_path_length c θ g.radius).1) from rfl,
      List.map_map]
    rfl
  · rw [set_distances_distances, List.map_map]
    rfl

theorem cve_fold_muls (g : Gridded_circle) :
    ∀ angles : List ℝ,
      (cve_fold g angles).2.2 =
        angles.map (fun θ => (g.grid.map (fun p =>
          Real.exp (-g.mu * (get_path_length p θ g.radius).1))).sum)
  | [] => rfl
  | θ :: rest => by
    rw [cve_fold, List.map_cons]
    refine congrArg₂ _ (congrArg _ (step_muls g θ)) ?_
    rw [cve_fold_muls ((g.set_distances_at_angle θ).set_muls_at_angle θ) rest,
      set_muls_grid, set_muls_mu, set_muls_radius,
      set_distances_grid, set_distances_mu, set_distances_radius]

theorem cve_fold_total (g : Gridded_circle) :
    ∀ angles : List ℝ,
      (cve_fold g angles).1.total_points_in_grid = g.total_points_in_grid
  | [] => rfl
  | θ :: rest => by
    rw [cve_fold,
      cve_fold_total ((g.set_distances_at_angle θ).set_muls_at_angle θ) rest,
      set_muls_total, set_distances_total]

/-! ### Claims C1, C2 (spec-modelled dispatch), C9, C10 -/

/-- C1: for every measured pattern and every mud, calling the correction
computation with a method value outside the closed enumeration CVE_METHODS
fails immediately — no strategy token is produced, so no grid or correction
computation starts — with an error naming the offending method value and
listing all allowed method names. -/
theorem C1_unknown_method_fails (pattern : List ℚ) (mud : ℚ) (method : String)
    (h : method ∉ CVE_METHODS) :
    compute_correction_dispatch pattern mud method =
      .error (.unknownMethod method CVE_METHODS) := by
  rw [compute_correction_dispatch, if_pos h]

/-- Witness for C1 at the spec's end-to-end example: method
"invalid_method" with mud = 1. -/
theorem C1_unknown_method_fails_witness :
    "invalid_method" ∉ CVE_METHODS ∧
      compute_correction_dispatch [] 1 "invalid_method" =
        .error (.unknownMethod "invalid_method" CVE_METHODS) :=
  ⟨by decide, C1_unknown_method_fails [] 1 "invalid_method" (by decide)⟩

/-- C2: for every measured pattern, requesting the approximate
(polynomial interpolation) strategy with mud outside the closed interval
[1/2, 7] fails before any computation with an error carrying the rejected mud
value and the valid bounds, while any mud inside the interval (its endpoints
included) passes validation and proceeds to the strategy. -/
theorem C2_approx_mud_range (pattern : List ℚ) (mud : ℚ) :
    ((mud < 1 / 2 ∨ 7 < mud) →
      compute_correction_dispatch pattern mud "polynomial_interpolation" =
        .error (.mudOutOfRange mud (1 / 2) 7 CVE_METHODS)) ∧
    (1 / 2 ≤ mud → mud ≤ 7 →
      compute_correction_dispatch pattern mud "polynomial_interpolation" =
        .ok (.polynomial_interpolation mud)) := by
  constructor
  · intro h
    rw [compute_correction_dispatch, if_neg (by decide), if_pos rfl,
      if_pos (Or.symm h)]
  · intro h1 h2
    rw [compute_correction_dispatch, if_neg (by decide), if_pos rfl,
      if_neg (by push_neg; exact ⟨h2, h1⟩)]

/-- Witness for C2 at the spec's boundary examples: mud = 1/2 and mud = 7
succeed, mud = 0.499999 and mud = 7.000001 fail with the range error. -/
theorem C2_approx_mud_range_witness :
    ((1 : ℚ) / 2 ≤ 1 / 2 ∧ (1 : ℚ) / 2 ≤ 7 ∧
      compute_correction_dispatch [] (1 / 2) "polynomial_interpolation" =
        .ok (.polynomial_interpolation (1 / 2))) ∧
    ((7 : ℚ) ≤ 7 ∧
      compute_correction_dispatch [] 7 "polynomial_interpolation" =
        .ok (.polynomial_interpolation 7)) ∧
    ((499999 / 1000000 : ℚ) < 1 / 2 ∧
      compute_correction_dispatch [] (499999 / 1000000) "polynomial_interpolation" =
        .error (.mudOutOfRange (499999 / 1000000) (1 / 2) 7 CVE_METHODS)) ∧
    ((7 : ℚ) < 7000001 / 1000000 ∧
      compute_correction_dispatch [] (7000001 / 1000000) "polynomial_interpolation" =
        .error (.mudOutOfRange (7000001 / 1000000) (1 / 2) 7 CVE_METHODS)) :=
  ⟨⟨by norm_num, by norm_num,
      (C2_approx_mud_range [] (1 / 2)).2 (by norm_num) (by norm_num)⟩,
    ⟨by norm_num, (C2_approx_mud_range [] 7).2 (by norm_num) (by norm_num)⟩,
    ⟨by norm_num, (C2_approx_mud_range [] (499999 / 1000000)).1 (Or.inl (by norm_num))⟩,
    ⟨by norm_num, (C2_approx_mud_range [] (7000001 / 1000000)).1 (Or.inr (by norm_num))⟩⟩

/-- C9: the correction values computed by compute_cve are independent of the
wavelength — for every measured-pattern grid, every mud and every two
wavelengths, the output correction arrays coincide (the wavelength is only
stored on the output object). -/
theorem C9_cve_wavelength_independent (orig_grid : List ℝ) (mud w1 w2 : ℝ) :
    (compute_cve orig_grid mud w1).on_tth_y =
      (compute_cve orig_grid mud w2).on_tth_y := rfl

/-- C10: get_coordinate_index returns the index of the first grid point equal
to the coordinate when it occurs in the grid, and otherwise — the empty grid
included — fails with the IndexError value naming the missing coordinate (the
lookup is a pure function of the grid, which it leaves untouched). -/
theorem C10_get_coordinate_index {K : Type} [LinearOrderedField K]
    (grid : List (K × K)) (c : K × K) :
    (c ∈ grid →
      get_coordinate_index grid c = .ok (grid.findIdx (fun t => decide (c = t)))) ∧
    (c ∉ grid → get_coordinate_index grid c = .error c) := by
  constructor
  · intro h
    rw [get_coordinate_index, get_coordinate_index_aux_ok c grid 0 h, Nat.zero_add]
  · intro h
    exact get_coordinate_index_aux_err c grid 0 h

/-- Witness for C10: a two-point grid over the rationals, one present and one
absent coordinate. -/
theorem C10_get_coordinate_index_witness :
    (((3 : ℚ), (4 : ℚ)) ∈ [((1 : ℚ), (2 : ℚ)), (3, 4)] ∧
      get_coordinate_index [((1 : ℚ), (2 : ℚ)), (3, 4)] (3, 4) = .ok 1) ∧
    (((5 : ℚ), (5 : ℚ)) ∉ [((1 : ℚ), (2 : ℚ)), (3, 4)] ∧
      get_coordinate_index [((1 : ℚ), (2 : ℚ)), (3, 4)] (5, 5) = .error (5, 5)) := by
  refine ⟨⟨by decide, ?_⟩, ⟨by decide, ?_⟩⟩
  · have h := (C10_get_coordinate_index [((1 : ℚ), (2 : ℚ)), (3, 4)] (3, 4)).1 (by decide)
    rw [show ([((1 : ℚ), (2 : ℚ)), (3, 4)].findIdx
      (fun t => decide ((3, 4) = t))) = 1 from rfl] at h
    exact h
  · exact (C10_get_coordinate_index [((1 : ℚ), (2 : ℚ)), (3, 4)] (5, 5)).2 (by decide)

/-- C7, counterexample to the claim as stated: n = 1 is odd and at least 1,
but the grid for radius 1 with one point on the diameter is empty (numpy's
linspace with a single sample returns only the left endpoint -r, and (-r,-r)
lies outside the disk), so it does not contain (0,0). -/
theorem C7_counterexample :
    (0 : ℚ) < 1 ∧ Odd 1 ∧ ((0 : ℚ), (0 : ℚ)) ∉ get_grid_points (1 : ℚ) 1 :=
  ⟨by norm_num, odd_one, by norm_num [get_grid_points, linspace]⟩

/-- C7 as amended: for every radius r > 0 and every odd n at least 3 the grid
contains the centre (0,0), and for every r and n every returned grid point
lies in the closed disk of radius r. -/
theorem C7_grid_contains_centre_and_disk {K : Type} [LinearOrderedField K]
    (r : K) (n : ℕ) :
    (0 < r → Odd n → 3 ≤ n → ((0 : K), (0 : K)) ∈ get_grid_points r n) ∧
    (∀ p ∈ get_grid_points r n, p.1 ^ 2 + p.2 ^ 2 ≤ r ^ 2) := by
  constructor
  · intro _ hodd h3
    have h0 : (0 : K) ∈ linspace (-r) r n := zero_mem_linspace r n hodd h3
    rw [get_grid_points]
    refine List.mem_flatMap.mpr ⟨0, h0, List.mem_flatMap.mpr ⟨0, h0, ?_⟩⟩
    rw [if_pos (by simpa using sq_nonneg r)]
    exact List.mem_singleton.mpr rfl
  · intro p hp
    exact mem_get_grid_points_bound hp

/-- Witness for C7 as amended: radius 1 with 3 points on the diameter over
the rationals. -/
theorem C7_grid_witness :
    ((0 : ℚ) < 1 ∧ Odd 3 ∧ 3 ≤ 3) ∧
      ((((0 : ℚ), (0 : ℚ)) ∈ get_grid_points (1 : ℚ) 3) ∧
        ∀ p ∈ get_grid_points (1 : ℚ) 3, p.1 ^ 2 + p.2 ^ 2 ≤ 1 ^ 2) :=
  ⟨⟨by norm_num, ⟨1, by norm_num⟩, le_refl 3⟩,
    (C7_grid_contains_centre_and_disk (1 : ℚ) 3).1 (by norm_num) ⟨1, by norm_num⟩
      (le_refl 3),
    (C7_grid_contains_centre_and_disk (1 : ℚ) 3).2⟩

/-- C8: interpolating a value sequence given on the internal angular grid
back onto exactly the internal grid nodes returns the sequence unchanged —
the resampling step of compute_cve is the identity on the internal grid. -/
theorem C8_interp_roundtrip (cve : List ℝ) (h : cve.length = 140) :
    TTH_GRID.map (fun x => interp1 x (TTH_GRID.zip cve)) = cve := by
  have hlen : TTH_GRID.length = 140 := by simp [TTH_GRID]
  have hpw : TTH_GRID.Pairwise (· < ·) := by
    rw [TTH_GRID]
    refine List.Pairwise.map _ ?_ (List.pairwise_lt_range 140)
    intro a b hab
    have : (a : ℝ) < (b : ℝ) := by exact_mod_cast hab
    linarith
  have hzip := pairwise_fst_zip TTH_GRID cve hpw
  have hfst : (TTH_GRID.zip cve).map Prod.fst = TTH_GRID :=
    List.map_fst_zip _ _ (by rw [hlen, h])
  have hsnd : (TTH_GRID.zip cve).map Prod.snd = cve :=
    List.map_snd_zip _ _ (by rw [hlen, h])
  calc TTH_GRID.map (fun x => interp1 x (TTH_GRID.zip cve))
      = ((TTH_GRID.zip cve).map Prod.fst).map
          (fun x => interp1 x (TTH_GRID.zip cve)) := by rw [hfst]
    _ = (TTH_GRID.zip cve).map (fun p => interp1 p.1 (TTH_GRID.zip cve)) := by
        rw [List.map_map]; rfl
    _ = (TTH_GRID.zip cve).map Prod.snd :=
        List.map_congr_left (fun p hp => interp1_at_node _ hzip p hp)
    _ = cve := hsnd

/-- Witness for C8: the constant sequence of ones on the internal grid. -/
theorem C8_interp_roundtrip_witness :
    (List.replicate 140 (1 : ℝ)).length = 140 ∧
      TTH_GRID.map (fun x => interp1 x (TTH_GRID.zip (List.replicate 140 (1 : ℝ)))) =
        List.replicate 140 (1 : ℝ) :=
  ⟨by simp, C8_interp_roundtrip (List.replicate 140 (1 : ℝ)) (by simp)⟩

/-- C3: for every mud, the internal correction curve of compute_cve ranges
over exactly the angles 1, 2, ..., 140 degrees, and at the angle k+1 (for k
ranging over 0..139) its value is the reciprocal of the arithmetic mean, over
all points of the canonical disk grid (radius 1, 249 points per diameter), of
exp(-(mud/2) * total_distance(point, angle)). -/
theorem C3_exact_curve (mud : ℝ) :
    cve_internal mud = (List.range 140).map (fun k : ℕ =>
      1 / (((get_grid_points (1 : ℝ) 249).map (fun p =>
          Real.exp (-(mud / 2) * (get_path_length p ((k : ℝ) + 1) 1).1))).sum /
        ((get_grid_points (1 : ℝ) 249).length : ℝ))) := by
  rw [cve_internal]
  rw [cve_fold_muls (Gridded_circle.init RADIUS_MM N_POINTS_ON_DIAMETER (mud / 2))
    TTH_GRID]
  rw [cve_fold_total (Gridded_circle.init RADIUS_MM N_POINTS_ON_DIAMETER (mud / 2))
    TTH_GRID]
  rw [show (Gridded_circle.init RADIUS_MM N_POINTS_ON_DIAMETER (mud / 2)).grid =
      get_grid_points (1 : ℝ) 249 from rfl]
  rw [show (Gridded_circle.init RADIUS_MM N_POINTS_ON_DIAMETER (mud / 2)).mu =
      mud / 2 from rfl]
  rw [show (Gridded_circle.init RADIUS_MM N_POINTS_ON_DIAMETER
      (mud / 2)).radius = (1 : ℝ) from rfl]
  rw [show (Gridded_circle.init RADIUS_MM N_POINTS_ON_DIAMETER
      (mud / 2)).total_points_in_grid = (get_grid_points (1 : ℝ) 249).length from rfl]
  rw [TTH_GRID, List.map_map, List.map_map, List.map_map]
  rfl

/-! ### Geometry helper lemmas -/

theorem radians_45 : radians 45 = Real.pi / 4 := by
  rw [radians]
  ring

theorem radians_90 : radians 90 = Real.pi / 2 := by
  rw [radians]
  ring

theorem isclose_rad_90 : isclose (radians 90) (Real.pi / 2) := by
  rw [radians_90, isclose, sub_self, abs_zero]
  exact le_trans (by norm_num) (le_max_right _ _)

theorem not_isclose_rad_45 : ¬ isclose (radians 45) (Real.pi / 2) := by
  rw [radians_45, isclose]
  have hpi := Real.pi_pos
  have hgt := Real.pi_gt_three
  have habs : |Real.pi / 4 - Real.pi / 2| = Real.pi / 4 := by
    rw [show Real.pi / 4 - Real.pi / 2 = -(Real.pi / 4) by ring, abs_neg,
      abs_of_pos (by positivity)]
  rw [habs, abs_of_pos (show (0:ℝ) < Real.pi / 4 by positivity),
    abs_of_pos (show (0:ℝ) < Real.pi / 2 by positivity)]
  rw [max_eq_right (show Real.pi / 4 ≤ Real.pi / 2 by linarith)]
  push_neg
  apply max_lt
  · nlinarith
  · linarith

theorem tan_radians_45 : Real.tan (radians 45) = 1 := by
  rw [radians_45, Real.tan_pi_div_four]

/-- The entry point returned by get_entry_exit_coordinates is the boundary
point at the grid point's height on the negative-x side, in both branches. -/
theorem get_entry_exit_fst (p : ℝ × ℝ) (θ r : ℝ) :
    (get_entry_exit_coordinates p θ r).1 =
      (-Real.sqrt (r ^ 2 - p.2 ^ 2), p.2) := by
  simp only [get_entry_exit_coordinates]
  split
  · split <;> rfl
  · rfl

/-- Unfolding of the near-90-degrees closed-form branch. -/
theorem get_entry_exit_at_close_90 (p : ℝ × ℝ) (θ r : ℝ)
    (h : isclose (radians θ) (Real.pi / 2)) :
    get_entry_exit_coordinates p θ r =
      ((-Real.sqrt (r ^ 2 - p.2 ^ 2), p.2), (p.1, Real.sqrt (r ^ 2 - p.1 ^ 2))) := by
  simp only [get_entry_exit_coordinates]
  rw [if_neg (not_not_intro h)]

/-- Unfolding of the exit point in the general branch, with the line slope
and intercept abstracted into named parameters. -/
theorem get_entry_exit_exit_general (p : ℝ × ℝ) (θ r a b : ℝ)
    (hadef : a = Real.tan (radians θ)) (hbdef : b = p.2 - p.1 * a)
    (hgen : ¬ isclose (radians θ) (Real.pi / 2)) :
    (get_entry_exit_coordinates p θ r).2 =
      if p.2 ≤ a * (roots2 (1 + a ^ 2) (2 * a * b) (b ^ 2 - r ^ 2)).2 + b
      then ((roots2 (1 + a ^ 2) (2 * a * b) (b ^ 2 - r ^ 2)).2,
            a * (roots2 (1 + a ^ 2) (2 * a * b) (b ^ 2 - r ^ 2)).2 + b)
      else ((roots2 (1 + a ^ 2) (2 * a * b) (b ^ 2 - r ^ 2)).1,
            a * (roots2 (1 + a ^ 2) (2 * a * b) (b ^ 2 - r ^ 2)).1 + b) := by
  subst hbdef
  subst hadef
  simp only [get_entry_exit_coordinates]
  rw [if_pos hgen]
  split <;> rfl

theorem roots2_is_root (A B C : ℝ) (hA : A ≠ 0) (hD : 0 ≤ B ^ 2 - 4 * A * C) :
    (A * ((roots2 A B C).1 * (roots2 A B C).1) + B * (roots2 A B C).1 + C = 0) ∧
    (A * ((roots2 A B C).2 * (roots2 A B C).2) + B * (roots2 A B C).2 + C = 0) := by
  have hdisc : discrim A B C =
      Real.sqrt (B ^ 2 - 4 * A * C) * Real.sqrt (B ^ 2 - 4 * A * C) := by
    rw [discrim, Real.mul_self_sqrt hD]
  exact ⟨(quadratic_eq_zero_iff hA hdisc _).mpr (Or.inr rfl),
    (quadratic_eq_zero_iff hA hdisc _).mpr (Or.inl rfl)⟩

theorem roots2_cover (A B C x : ℝ) (hA : A ≠ 0) (hD : 0 ≤ B ^ 2 - 4 * A * C)
    (hx : A * (x * x) + B * x + C = 0) :
    x = (roots2 A B C).1 ∨ x = (roots2 A B C).2 := by
  have hdisc : discrim A B C =
      Real.sqrt (B ^ 2 - 4 * A * C) * Real.sqrt (B ^ 2 - 4 * A * C) := by
    rw [discrim, Real.mul_self_sqrt hD]
  rcases (quadratic_eq_zero_iff hA hdisc x).mp hx with h | h
  · exact Or.inr h
  · exact Or.inl h

theorem roots2_sum (A B C : ℝ) (hA : A ≠ 0) :
    (roots2 A B C).1 + (roots2 A B C).2 = -B / A := by
  rw [roots2]
  field_simp
  ring

theorem roots2_mul (A B C : ℝ) (hA : A ≠ 0) (hD : 0 ≤ B ^ 2 - 4 * A * C) :
    (roots2 A B C).1 * (roots2 A B C).2 = C / A := by
  have hs : Real.sqrt (B ^ 2 - 4 * A * C) ^ 2 = B ^ 2 - 4 * A * C :=
    Real.sq_sqrt hD
  rw [roots2]
  field_simp
  linear_combination (-A) * hs

/-- set_muls_at_angle with a nonempty stored distance list reuses it,
whatever angle is passed. -/
theorem set_muls_at_angle_stale (g : Gridded_circle) (θ : ℝ)
    (h : g.distances ≠ []) :
    (g.set_muls_at_angle θ).muls =
      g.distances.map (fun d => Real.exp (-g.mu * d)) := by
  have h0 : ¬ g.distances.length = 0 := by simpa using h
  simp only [Gridded_circle.set_muls_at_angle, if_neg h0]

/-- set_muls_at_angle with an empty stored distance list computes distances
at the given angle first. -/
theorem set_muls_at_angle_fresh (g : Gridded_circle) (θ : ℝ)
    (h : g.distances = []) :
    (g.set_muls_at_angle θ).muls =
      g.grid.map (fun p => Real.exp (-g.mu * (get_path_length p θ g.radius).1)) := by
  have h0 : g.distances.length = 0 := by simp [h]
  simp only [Gridded_circle.set_muls_at_angle, if_pos h0]
  rw [set_distances_distances, List.map_map]
  rfl

/-- C6: get_path_length handles the two degenerate angles without a special
error path: an exit angle of exactly 0 is replaced by 0 + 1e-6 before the
general formula runs (so the result coincides with the one at angle 1e-6),
and any angle whose radian value is within the isclose tolerance of pi/2 —
proximity, not exact equality — is served by the dedicated closed-form branch
whose exit point lies directly above the grid point on the circle. -/
theorem C6_degenerate_angles (p : ℝ × ℝ) (r θ : ℝ) :
    get_path_length p 0 r = get_path_length p (1 / 10 ^ 6) r ∧
    (isclose (radians θ) (Real.pi / 2) →
      (get_entry_exit_coordinates p θ r).2 = (p.1, Real.sqrt (r ^ 2 - p.1 ^ 2))) := by
  constructor
  · simp only [get_path_length]
    norm_num
  · intro h
    rw [get_entry_exit_at_close_90 p θ r h]

/-- Witness for C6 at the point (0,0), radius 1, angle 90 (whose radian value
is exactly pi/2, hence within tolerance). -/
theorem C6_degenerate_angles_witness :
    isclose (radians 90) (Real.pi / 2) ∧
      (get_entry_exit_coordinates ((0 : ℝ), (0 : ℝ)) 90 1).2 =
        ((0 : ℝ), Real.sqrt ((1 : ℝ) ^ 2 - (0 : ℝ) ^ 2)) :=
  ⟨isclose_rad_90,
    (C6_degenerate_angles ((0 : ℝ), (0 : ℝ)) 1 90).2 isclose_rad_90⟩

/-- C5: for every grid point strictly inside the disk and every
non-degenerate angle (general branch, nonzero slope a = tan(angle), intercept
b through the point), the exit coordinate returned by the solver lies on the
boundary circle and on the exit line, its y-coordinate is not below the grid
point's y-coordinate, and it is the unique line-circle intersection at or
above that height — so whenever intersection roots lie at or above the grid
point's y, the selected exit point is the one with the highest y among them. -/
theorem C5_exit_root_selection (p : ℝ × ℝ) (θ r a b : ℝ)
    (hadef : a = Real.tan (radians θ))
    (hbdef : b = p.2 - p.1 * a)
    (hin : p.1 ^ 2 + p.2 ^ 2 < r ^ 2)
    (hgen : ¬ isclose (radians θ) (Real.pi / 2))
    (ha : a ≠ 0) :
    (get_entry_exit_coordinates p θ r).2.1 ^ 2 +
        (get_entry_exit_coordinates p θ r).2.2 ^ 2 = r ^ 2 ∧
    (get_entry_exit_coordinates p θ r).2.2 =
        a * (get_entry_exit_coordinates p θ r).2.1 + b ∧
    p.2 ≤ (get_entry_exit_coordinates p θ r).2.2 ∧
    (∀ x : ℝ, x ^ 2 + (a * x + b) ^ 2 = r ^ 2 → p.2 ≤ a * x + b →
      (x, a * x + b) = (get_entry_exit_coordinates p θ r).2) := by
  have hyg : p.2 = a * p.1 + b := by rw [hbdef]; ring
  have hA : (0 : ℝ) < 1 + a ^ 2 := by positivity
  have hAne : (1 + a ^ 2 : ℝ) ≠ 0 := ne_of_gt hA
  have hsub : 0 < r ^ 2 - (p.1 ^ 2 + p.2 ^ 2) := by linarith
  have hb2 : b ^ 2 + (p.1 + a * p.2) ^ 2 = (1 + a ^ 2) * (p.1 ^ 2 + p.2 ^ 2) := by
    rw [hbdef]
    ring
  have hD : 0 ≤ (2 * a * b) ^ 2 - 4 * (1 + a ^ 2) * (b ^ 2 - r ^ 2) := by
    nlinarith [hb2, sq_nonneg (p.1 + a * p.2), hsub,
      mul_nonneg (sq_nonneg a) hsub.le]
  obtain ⟨hroot1, hroot2⟩ :=
    roots2_is_root (1 + a ^ 2) (2 * a * b) (b ^ 2 - r ^ 2) hAne hD
  have hsum := roots2_sum (1 + a ^ 2) (2 * a * b) (b ^ 2 - r ^ 2) hAne
  have hmul := roots2_mul (1 + a ^ 2) (2 * a * b) (b ^ 2 - r ^ 2) hAne hD
  have hEE := get_entry_exit_exit_general p θ r a b hadef hbdef hgen
  set R1 := (roots2 (1 + a ^ 2) (2 * a * b) (b ^ 2 - r ^ 2)).1 with hR1
  set R2 := (roots2 (1 + a ^ 2) (2 * a * b) (b ^ 2 - r ^ 2)).2 with hR2
  have e3 : (R1 - p.1) * (R2 - p.1) = (p.1 ^ 2 + p.2 ^ 2 - r ^ 2) / (1 + a ^ 2) := by
    have expand : (R1 - p.1) * (R2 - p.1) = R1 * R2 - p.1 * (R1 + R2) + p.1 ^ 2 := by
      ring
    rw [expand, hmul, hsum, hbdef]
    field_simp
    ring
  have hprod : (a * R1 + b - p.2) * (a * R2 + b - p.2) < 0 := by
    have e1 : a * R1 + b - p.2 = a * (R1 - p.1) := by
      rw [hyg]
      ring
    have e2 : a * R2 + b - p.2 = a * (R2 - p.1) := by
      rw [hyg]
      ring
    rw [e1, e2, show a * (R1 - p.1) * (a * (R2 - p.1)) =
      a ^ 2 * ((R1 - p.1) * (R2 - p.1)) by ring, e3]
    apply mul_neg_of_pos_of_neg
    · exact lt_of_le_of_ne (sq_nonneg a) (Ne.symm (pow_ne_zero 2 ha))
    · exact div_neg_of_neg_of_pos (by linarith) hA
  rw [hEE]
  by_cases hsel : p.2 ≤ a * R2 + b
  · rw [if_pos hsel]
    dsimp only
    refine ⟨by linear_combination hroot2, rfl, hsel, ?_⟩
    intro x hx hxy
    have hq : (1 + a ^ 2) * (x * x) + (2 * a * b) * x + (b ^ 2 - r ^ 2) = 0 := by
      linear_combination hx
    rcases roots2_cover (1 + a ^ 2) (2 * a * b) (b ^ 2 - r ^ 2) x hAne hD hq with h | h
    · exfalso
      rw [← hR1] at h
      rw [h] at hxy
      exact absurd hprod (not_lt.mpr
        (mul_nonneg (sub_nonneg.mpr hxy) (sub_nonneg.mpr hsel)))
    · rw [← hR2] at h
      rw [h]
  · rw [if_neg hsel]
    dsimp only
    push_neg at hsel
    have hy1 : p.2 ≤ a * R1 + b := by nlinarith [hprod]
    refine ⟨by linear_combination hroot1, rfl, hy1, ?_⟩
    intro x hx hxy
    have hq : (1 + a ^ 2) * (x * x) + (2 * a * b) * x + (b ^ 2 - r ^ 2) = 0 := by
      linear_combination hx
    rcases roots2_cover (1 + a ^ 2) (2 * a * b) (b ^ 2 - r ^ 2) x hAne hD hq with h | h
    · rw [← hR1] at h
      rw [h]
    · exfalso
      rw [← hR2] at h
      rw [h] at hxy
      linarith

/-- Witness for C5 at the centre point (0,0), radius 1, angle 45 (slope
tan(45 degrees) = 1, intercept 0). -/
theorem C5_exit_root_selection_witness :
    ((0 : ℝ) ^ 2 + (0 : ℝ) ^ 2 < (1 : ℝ) ^ 2) ∧
    (¬ isclose (radians 45) (Real.pi / 2)) ∧ ((1 : ℝ) ≠ 0) ∧
    ((get_entry_exit_coordinates ((0 : ℝ), (0 : ℝ)) 45 1).2.1 ^ 2 +
        (get_entry_exit_coordinates ((0 : ℝ), (0 : ℝ)) 45 1).2.2 ^ 2 = 1 ^ 2 ∧
      (get_entry_exit_coordinates ((0 : ℝ), (0 : ℝ)) 45 1).2.2 =
        1 * (get_entry_exit_coordinates ((0 : ℝ), (0 : ℝ)) 45 1).2.1 + 0 ∧
      ((0 : ℝ), (0 : ℝ)).2 ≤ (get_entry_exit_coordinates ((0 : ℝ), (0 : ℝ)) 45 1).2.2 ∧
      (∀ x : ℝ, x ^ 2 + (1 * x + 0) ^ 2 = 1 ^ 2 →
        ((0 : ℝ), (0 : ℝ)).2 ≤ 1 * x + 0 →
        (x, 1 * x + 0) = (get_entry_exit_coordinates ((0 : ℝ), (0 : ℝ)) 45 1).2)) :=
  ⟨by norm_num, not_isclose_rad_45, one_ne_zero,
    C5_exit_root_selection ((0 : ℝ), (0 : ℝ)) 45 1 1 0 tan_radians_45.symm
      (by norm_num) (by norm_num) not_isclose_rad_45 one_ne_zero⟩

theorem sqrt_four : Real.sqrt 4 = 2 := by
  rw [show (4 : ℝ) = 2 ^ 2 by norm_num]
  exact Real.sqrt_sq (by norm_num)

theorem grid_init_1_3 : (Gridded_circle.init 1 3 1).grid =
    [((-1 : ℝ), (0 : ℝ)), (0, -1), (0, 0), (0, 1), (1, 0)] := by
  show get_grid_points (1 : ℝ) 3 = _
  norm_num [get_grid_points, linspace, List.range_succ]

theorem gpl_0n1_90 : (get_path_length ((0 : ℝ), (-1 : ℝ)) 90 1).1 = 2 := by
  simp only [get_path_length]
  rw [if_neg (show ¬ ((90 : ℝ) = 0) by norm_num)]
  rw [get_entry_exit_at_close_90 ((0 : ℝ), (-1 : ℝ)) 90 1 isclose_rad_90]
  norm_num [math_dist, Real.sqrt_zero, Real.sqrt_one, sqrt_four]

theorem roots2_2_n2_0 : roots2 (2 : ℝ) (-2) 0 = (0, 1) := by
  rw [roots2, show ((-2 : ℝ)) ^ 2 - 4 * 2 * 0 = 4 by norm_num, sqrt_four]
  norm_num [Prod.mk.injEq]

theorem gpl_0n1_45 : (get_path_length ((0 : ℝ), (-1 : ℝ)) 45 1).1 = Real.sqrt 2 := by
  simp only [get_path_length]
  rw [if_neg (show ¬ ((45 : ℝ) = 0) by norm_num)]
  have hexit := get_entry_exit_exit_general ((0 : ℝ), (-1 : ℝ)) 45 1 1 (-1)
    tan_radians_45.symm (by norm_num) not_isclose_rad_45
  rw [show (1 : ℝ) + 1 ^ 2 = 2 by norm_num, show (2 : ℝ) * 1 * (-1) = -2 by norm_num,
    show ((-1 : ℝ)) ^ 2 - 1 ^ 2 = 0 by norm_num, roots2_2_n2_0] at hexit
  norm_num at hexit
  have hentry := get_entry_exit_fst ((0 : ℝ), (-1 : ℝ)) 45 1
  rw [hexit, hentry]
  norm_num [math_dist, Real.sqrt_zero]

/-- C4, counterexample to the claim as stated: on the radius-1 grid with 3
points per diameter and mu = 1, first computing distances at 90 degrees and
then requesting the attenuations at 45 degrees reuses the stored 90-degree
distances, so the muls differ from exp(-mu*d(point, 45)): at the grid point
(0,-1) the stored total distance is 2 while the 45-degree distance is
sqrt 2. -/
theorem C4_counterexample :
    (((Gridded_circle.init 1 3 1).set_distances_at_angle 90).set_muls_at_angle 45).muls ≠
      (Gridded_circle.init 1 3 1).grid.map (fun p =>
        Real.exp (-(Gridded_circle.init 1 3 1).mu *
          (get_path_length p 45 (Gridded_circle.init 1 3 1).radius).1)) := by
  have hne : ((Gridded_circle.init 1 3 1).set_distances_at_angle 90).distances ≠ [] := by
    rw [set_distances_distances, grid_init_1_3]
    simp
  rw [set_muls_at_angle_stale _ _ hne, set_distances_mu, set_distances_distances,
    List.map_map]
  rw [show (Gridded_circle.init 1 3 1).mu = 1 from rfl,
    show (Gridded_circle.init 1 3 1).radius = 1 from rfl, grid_init_1_3]
  intro h
  simp only [List.map_cons, List.map_nil, Function.comp_apply, List.cons.injEq,
    and_true] at h
  have h1 : Real.exp (-1 * (get_path_length ((0 : ℝ), (-1 : ℝ)) 90 1).1) =
      Real.exp (-1 * (get_path_length ((0 : ℝ), (-1 : ℝ)) 45 1).1) := h.2.1
  rw [gpl_0n1_90, gpl_0n1_45, Real.exp_eq_exp] at h1
  have h2 : Real.sqrt 2 = 2 := by linarith
  have h3 := Real.sq_sqrt (show (0 : ℝ) ≤ 2 by norm_num)
  rw [h2] at h3
  norm_num at h3

/-- C4 as amended: set_muls_at_angle recomputes distances at the given angle
only when the stored distance list is empty (then the attenuations are
exp(-mu*d(point, angle)) over the grid); when a distance list is already
stored — possibly from a previously processed angle — it is reused as is, and
the attenuations are exp(-mu*d) over the stored distances, whatever angle is
passed.  (In the compute_cve driver set_distances_at_angle always runs at the
same angle immediately before, so there the fresh semantics holds.) -/
theorem C4_muls_cache_behaviour (g : Gridded_circle) (θ : ℝ) :
    (g.distances = [] →
      (g.set_muls_at_angle θ).muls =
        g.grid.map (fun p => Real.exp (-g.mu * (get_path_length p θ g.radius).1))) ∧
    (g.distances ≠ [] →
      (g.set_muls_at_angle θ).muls =
        g.distances.map (fun d => Real.exp (-g.mu * d))) :=
  ⟨fun h => set_muls_at_angle_fresh g θ h, fun h => set_muls_at_angle_stale g θ h⟩

/-- Witness for C4 as amended: a state with a stored distance list [2]. -/
theorem C4_muls_cache_behaviour_witness :
    gc_with_distances.distances ≠ [] ∧
      (gc_with_distances.set_muls_at_angle 45).muls =
        gc_with_distances.distances.map
          (fun d => Real.exp (-gc_with_distances.mu * d)) :=
  ⟨by simp [gc_with_distances],
    (C4_muls_cache_behaviour gc_with_distances 45).2 (by simp [gc_with_distances])⟩

end LabPdfProc
